import Mathlib

/-!
Verification of the rollout estimators of `AIToolbox/MDP/Algorithms/Utils/Rollout.hpp`
and of the tiger-door model of `examples/POMDP/tiger_door.cpp`.

The C++ functions are shallowly embedded over exact rational arithmetic.
A generative model is a record of the operations the rollout code calls:
`getA` (action-space size), `sampleSR` (one generative step), `isTerminal`,
and `getDiscount`.  Randomness is made explicit: the random stream is a
function `Nat → Nat`; at depth `d` the step consumes `ρ (2 * d)` to feed the
uniform action distribution and `ρ (2 * d + 1)` to feed `sampleSR`, which is
exactly the per-step consumption pattern shared by `rollout` and
`adaptiveRollout` in the source, so running the two on the same `ρ` models
running them on the same random stream.
-/

/-- A generative model with a fixed action space (the `HasFixedActionSpace`
branch of the source): `getA` is the action count, `sampleSR s a r` draws one
transition/reward sample from state `s` under action `a` using the raw random
draw `r`, `isTerminal` flags absorbing states, `getDiscount` is the discount
factor. -/
structure GenModel where
  getA : Nat
  sampleSR : Nat → Nat → Nat → Nat × ℚ
  isTerminal : Nat → Bool
  getDiscount : ℚ

/-- A generative model with a variable (state-dependent) action space: the
`getA` capability takes the current state, as in the second branch of the
source. -/
structure GenModelV where
  getA : Nat → Nat
  sampleSR : Nat → Nat → Nat → Nat × ℚ
  isTerminal : Nat → Bool
  getDiscount : ℚ

/-- View a fixed-action-space model as a variable-action-space one whose
action count ignores the state. -/
def toVar (m : GenModel) : GenModelV where
  getA := fun _ => m.getA
  sampleSR := m.sampleSR
  isTerminal := m.isTerminal
  getDiscount := m.getDiscount

/-- Embedding of `std::uniform_int_distribution<size_t>(0, A-1)` applied to a
raw draw `r`: the draw is reduced onto the legal action range `{0, …, A-1}`. -/
def uniformDraw (A r : Nat) : Nat := r % A

/-- Embedding of `std::abs` on the exact scalars. -/
def rabs (q : ℚ) : ℚ := if q < 0 then -q else q

/-- One simulated step of the fixed-action-space rollouts at depth `d` from
state `s`: draw the action through the uniform distribution from `ρ (2 * d)`
and call `sampleSR` on it with the raw draw `ρ (2 * d + 1)`, as in
`std::tie(s, rew) = m.sampleSR(s, dist(rnd))`. -/
def stepSR (m : GenModel) (ρ : Nat → Nat) (d s : Nat) : Nat × ℚ :=
  m.sampleSR s (uniformDraw m.getA (ρ (2 * d))) (ρ (2 * d + 1))

/-- One simulated step of the variable-action-space rollouts: the uniform
distribution is re-instantiated from the action count of the current state. -/
def stepSRV (m : GenModelV) (ρ : Nat → Nat) (d s : Nat) : Nat × ℚ :=
  m.sampleSR s (uniformDraw (m.getA s) (ρ (2 * d))) (ρ (2 * d + 1))

/-- Loop of `rollout` (fixed action space branch), by recursion on the number
of remaining iterations.  `d` is the current depth (used to index the random
stream), `gamma` the current discount weight, `totalRew` the accumulator. -/
def rolloutFrom (m : GenModel) (ρ : Nat → Nat) :
    Nat → Nat → Nat → ℚ → ℚ → ℚ
  | 0, _, _, _, totalRew => totalRew
  | fuel + 1, d, s, gamma, totalRew =>
    let sr := stepSR m ρ d s
    let totalRew2 := totalRew + gamma * sr.2
    if m.isTerminal sr.1 then totalRew2
    else rolloutFrom m ρ fuel (d + 1) sr.1 (gamma * m.getDiscount) totalRew2

/-- Embedding of `rollout` (fixed action space branch). -/
def rollout (m : GenModel) (s : Nat) (maxDepth : Nat) (ρ : Nat → Nat) : ℚ :=
  rolloutFrom m ρ maxDepth 0 s 1 0

/-- Loop of `rollout` (variable action space branch): the uniform action
distribution is re-instantiated from `getA s` at every step. -/
def rolloutVarFrom (m : GenModelV) (ρ : Nat → Nat) :
    Nat → Nat → Nat → ℚ → ℚ → ℚ
  | 0, _, _, _, totalRew => totalRew
  | fuel + 1, d, s, gamma, totalRew =>
    let sr := stepSRV m ρ d s
    let totalRew2 := totalRew + gamma * sr.2
    if m.isTerminal sr.1 then totalRew2
    else rolloutVarFrom m ρ fuel (d + 1) sr.1 (gamma * m.getDiscount) totalRew2

/-- Embedding of `rollout` (variable action space branch). -/
def rolloutVar (m : GenModelV) (s : Nat) (maxDepth : Nat) (ρ : Nat → Nat) : ℚ :=
  rolloutVarFrom m ρ maxDepth 0 s 1 0

/-- Loop of `adaptiveRollout` (fixed action space branch).  `window` is the
sliding deque of recent discounted per-step rewards (front at the list head,
push_back appends), `windowSum` its maintained running sum. -/
def adaptiveFrom (m : GenModel) (ρ : Nat → Nat)
    (minDepth windowSize : Nat) (threshold : ℚ) :
    Nat → Nat → Nat → ℚ → ℚ → List ℚ → ℚ → ℚ
  | 0, _, _, _, totalRew, _, _ => totalRew
  | fuel + 1, d, s, gamma, totalRew, window, windowSum =>
    let sr := stepSR m ρ d s
    let totalRew2 := totalRew + gamma * sr.2
    let window2 := window ++ [gamma * sr.2]
    let windowSum2 := windowSum + gamma * sr.2
    let window3 := if windowSize < window2.length then window2.tail else window2
    let windowSum3 :=
      if windowSize < window2.length then windowSum2 - window2.headD 0 else windowSum2
    if m.isTerminal sr.1 then totalRew2
    else if minDepth ≤ d ∧ window3.length = windowSize ∧
        rabs (window3.getLastD 0 - windowSum3 / (windowSize : ℚ)) < threshold then totalRew2
    else adaptiveFrom m ρ minDepth windowSize threshold fuel (d + 1) sr.1
      (gamma * m.getDiscount) totalRew2 window3 windowSum3

/-- Embedding of `adaptiveRollout` (fixed action space branch). -/
def adaptiveRollout (m : GenModel) (s : Nat) (maxDepth : Nat) (ρ : Nat → Nat)
    (minDepth windowSize : Nat) (threshold : ℚ) : ℚ :=
  adaptiveFrom m ρ minDepth windowSize threshold maxDepth 0 s 1 0 [] 0

/-- Loop of `adaptiveRollout` (variable action space branch). -/
def adaptiveVarFrom (m : GenModelV) (ρ : Nat → Nat)
    (minDepth windowSize : Nat) (threshold : ℚ) :
    Nat → Nat → Nat → ℚ → ℚ → List ℚ → ℚ → ℚ
  | 0, _, _, _, totalRew, _, _ => totalRew
  | fuel + 1, d, s, gamma, totalRew, window, windowSum =>
    let sr := stepSRV m ρ d s
    let totalRew2 := totalRew + gamma * sr.2
    let window2 := window ++ [gamma * sr.2]
    let windowSum2 := windowSum + gamma * sr.2
    let window3 := if windowSize < window2.length then window2.tail else window2
    let windowSum3 :=
      if windowSize < window2.length then windowSum2 - window2.headD 0 else windowSum2
    if m.isTerminal sr.1 then totalRew2
    else if minDepth ≤ d ∧ window3.length = windowSize ∧
        rabs (window3.getLastD 0 - windowSum3 / (windowSize : ℚ)) < threshold then totalRew2
    else adaptiveVarFrom m ρ minDepth windowSize threshold fuel (d + 1) sr.1
      (gamma * m.getDiscount) totalRew2 window3 windowSum3

/-- Embedding of `adaptiveRollout` (variable action space branch). -/
def adaptiveRolloutVar (m : GenModelV) (s : Nat) (maxDepth : Nat) (ρ : Nat → Nat)
    (minDepth windowSize : Nat) (threshold : ℚ) : ℚ :=
  adaptiveVarFrom m ρ minDepth windowSize threshold maxDepth 0 s 1 0 [] 0

/-- The action drawn at depth `d` by the fixed-action-space rollouts: the raw
draw `ρ (2 * d)` fed to the uniform distribution over `{0, …, getA - 1}`.
For a fixed action space the distribution is a function of `getA` alone,
instantiated once — the drawn action does not depend on the current state. -/
def trajA (m : GenModel) (ρ : Nat → Nat) (d : Nat) : Nat :=
  uniformDraw m.getA (ρ (2 * d))

/-- The state reached after `d` simulated steps, starting from `s`. -/
def trajS (m : GenModel) (ρ : Nat → Nat) (s : Nat) : Nat → Nat
  | 0 => s
  | d + 1 => (stepSR m ρ d (trajS m ρ s d)).1

/-- The undiscounted reward of the step taken at depth `d`. -/
def trajR (m : GenModel) (ρ : Nat → Nat) (s : Nat) (d : Nat) : ℚ :=
  (stepSR m ρ d (trajS m ρ s d)).2

/-- The discounted reward of the step taken at depth `d`: the entry the
adaptive rollout pushes into its sliding window at that step. -/
def discountedRew (m : GenModel) (ρ : Nat → Nat) (s : Nat) (d : Nat) : ℚ :=
  m.getDiscount ^ d * trajR m ρ s d

/-- The action drawn at depth `d` of the variable-action-space rollout when
the current state is `cur`: the distribution is re-instantiated from the
action count of the current state. -/
def trajAV (m : GenModelV) (ρ : Nat → Nat) (cur d : Nat) : Nat :=
  uniformDraw (m.getA cur) (ρ (2 * d))

/-- The state reached after `d` steps of the variable-action-space rollout. -/
def trajSV (m : GenModelV) (ρ : Nat → Nat) (s : Nat) : Nat → Nat
  | 0 => s
  | d + 1 => (stepSRV m ρ d (trajSV m ρ s d)).1

/-- Number of steps the fixed-depth rollout loop actually executes, starting
from depth `d` with `fuel` iterations left: it runs until the fuel is gone or
the state reached by a step is terminal (that step included). -/
def numStepsFrom (m : GenModel) (ρ : Nat → Nat) (s : Nat) : Nat → Nat → Nat
  | 0, _ => 0
  | fuel + 1, d =>
    if m.isTerminal (trajS m ρ s (d + 1)) then 1
    else 1 + numStepsFrom m ρ s fuel (d + 1)

/-- Number of steps `rollout m s maxDepth ρ` actually executes. -/
def numSteps (m : GenModel) (ρ : Nat → Nat) (s : Nat) (maxDepth : Nat) : Nat :=
  numStepsFrom m ρ s maxDepth 0

/-- How a run of the adaptive rollout loop stopped. -/
inductive StopReason where
  /-- a step reached a terminal state -/
  | terminal : StopReason
  /-- the reward-window convergence check fired -/
  | converged : StopReason
  /-- the loop exhausted its iteration budget -/
  | depthLimit : StopReason
deriving DecidableEq

/-- Instrumented adaptive rollout loop: same control flow as `adaptiveFrom`,
additionally reporting how the loop stopped and how many steps it executed.
The returned triple is (stop reason, steps executed, discounted sum). -/
def adaptiveRunFrom (m : GenModel) (ρ : Nat → Nat)
    (minDepth windowSize : Nat) (threshold : ℚ) :
    Nat → Nat → Nat → ℚ → ℚ → List ℚ → ℚ → StopReason × Nat × ℚ
  | 0, _, _, _, totalRew, _, _ => (.depthLimit, 0, totalRew)
  | fuel + 1, d, s, gamma, totalRew, window, windowSum =>
    let sr := stepSR m ρ d s
    let totalRew2 := totalRew + gamma * sr.2
    let window2 := window ++ [gamma * sr.2]
    let windowSum2 := windowSum + gamma * sr.2
    let window3 := if windowSize < window2.length then window2.tail else window2
    let windowSum3 :=
      if windowSize < window2.length then windowSum2 - window2.headD 0 else windowSum2
    if m.isTerminal sr.1 then (.terminal, 1, totalRew2)
    else if minDepth ≤ d ∧ window3.length = windowSize ∧
        rabs (window3.getLastD 0 - windowSum3 / (windowSize : ℚ)) < threshold then
      (.converged, 1, totalRew2)
    else
      let r := adaptiveRunFrom m ρ minDepth windowSize threshold fuel (d + 1) sr.1
        (gamma * m.getDiscount) totalRew2 window3 windowSum3
      (r.1, r.2.1 + 1, r.2.2)

/-- How `adaptiveRollout m s maxDepth ρ minDepth windowSize threshold`
stopped. -/
def adaptiveStop (m : GenModel) (s : Nat) (maxDepth : Nat) (ρ : Nat → Nat)
    (minDepth windowSize : Nat) (threshold : ℚ) : StopReason :=
  (adaptiveRunFrom m ρ minDepth windowSize threshold maxDepth 0 s 1 0 [] 0).1

/-- Number of steps `adaptiveRollout m s maxDepth ρ minDepth windowSize
threshold` actually executes before stopping. -/
def adaptiveSteps (m : GenModel) (s : Nat) (maxDepth : Nat) (ρ : Nat → Nat)
    (minDepth windowSize : Nat) (threshold : ℚ) : Nat :=
  (adaptiveRunFrom m ρ minDepth windowSize threshold maxDepth 0 s 1 0 [] 0).2.1

/-- Content of the adaptive rollout's sliding window on entry to depth `d`:
the most recent `min d windowSize` discounted per-step rewards, oldest
entries evicted. -/
def specWindow (m : GenModel) (ρ : Nat → Nat) (s : Nat) (windowSize d : Nat) :
    List ℚ :=
  ((List.range d).map (discountedRew m ρ s)).drop (d - windowSize)

/-- Whether the convergence check of the adaptive rollout fires at depth `d`
(assuming the run reaches that depth without stopping): the depth has reached
`minDepth`, the window after the step at depth `d` holds exactly `windowSize`
entries, and the most recent entry differs from the window average by less
than `threshold`. -/
def firesB (m : GenModel) (ρ : Nat → Nat) (s : Nat)
    (minDepth windowSize : Nat) (threshold : ℚ) (d : Nat) : Bool :=
  decide (minDepth ≤ d) &&
  decide ((specWindow m ρ s windowSize (d + 1)).length = windowSize) &&
  decide (rabs ((specWindow m ρ s windowSize (d + 1)).getLastD 0 -
    (specWindow m ρ s windowSize (d + 1)).sum / (windowSize : ℚ)) < threshold)

/-- Adaptive rollout loop instrumented for the well-definedness of the
convergence check: when the check is evaluated on a window of size
`windowSize = 0` it would read the back element of an empty deque and divide
the running sum by zero, which this embedding reports as an error. -/
def adaptiveChkFrom (m : GenModel) (ρ : Nat → Nat)
    (minDepth windowSize : Nat) (threshold : ℚ) :
    Nat → Nat → Nat → ℚ → ℚ → List ℚ → ℚ → Except Unit ℚ
  | 0, _, _, _, totalRew, _, _ => .ok totalRew
  | fuel + 1, d, s, gamma, totalRew, window, windowSum =>
    let sr := stepSR m ρ d s
    let totalRew2 := totalRew + gamma * sr.2
    let window2 := window ++ [gamma * sr.2]
    let windowSum2 := windowSum + gamma * sr.2
    let window3 := if windowSize < window2.length then window2.tail else window2
    let windowSum3 :=
      if windowSize < window2.length then windowSum2 - window2.headD 0 else windowSum2
    if m.isTerminal sr.1 then .ok totalRew2
    else if minDepth ≤ d ∧ window3.length = windowSize then
      if windowSize = 0 then .error ()
      else if rabs (window3.getLastD 0 - windowSum3 / (windowSize : ℚ)) < threshold then
        .ok totalRew2
      else adaptiveChkFrom m ρ minDepth windowSize threshold fuel (d + 1) sr.1
        (gamma * m.getDiscount) totalRew2 window3 windowSum3
    else adaptiveChkFrom m ρ minDepth windowSize threshold fuel (d + 1) sr.1
      (gamma * m.getDiscount) totalRew2 window3 windowSum3

/-- `adaptiveRollout` instrumented for well-definedness of the convergence
check (see `adaptiveChkFrom`). -/
def adaptiveRolloutChk (m : GenModel) (s : Nat) (maxDepth : Nat) (ρ : Nat → Nat)
    (minDepth windowSize : Nat) (threshold : ℚ) : Except Unit ℚ :=
  adaptiveChkFrom m ρ minDepth windowSize threshold maxDepth 0 s 1 0 [] 0

/-- The undiscounted reward of the step taken at depth `d` of the
variable-action-space rollout. -/
def trajRV (m : GenModelV) (ρ : Nat → Nat) (s : Nat) (d : Nat) : ℚ :=
  (stepSRV m ρ d (trajSV m ρ s d)).2

/-- Number of steps the variable-action-space fixed-depth rollout loop
actually executes, starting from depth `d` with `fuel` iterations left
(analogue of `numStepsFrom`). -/
def numStepsVFrom (m : GenModelV) (ρ : Nat → Nat) (s : Nat) : Nat → Nat → Nat
  | 0, _ => 0
  | fuel + 1, d =>
    if m.isTerminal (trajSV m ρ s (d + 1)) then 1
    else 1 + numStepsVFrom m ρ s fuel (d + 1)

/-- Number of steps `rolloutVar m s maxDepth ρ` actually executes. -/
def numStepsV (m : GenModelV) (ρ : Nat → Nat) (s : Nat) (maxDepth : Nat) :
    Nat :=
  numStepsVFrom m ρ s maxDepth 0

/-- Instrumented variable-action-space adaptive rollout loop: same control
flow as `adaptiveVarFrom`, additionally reporting how the loop stopped and
how many steps it executed (analogue of `adaptiveRunFrom`). -/
def adaptiveRunVarFrom (m : GenModelV) (ρ : Nat → Nat)
    (minDepth windowSize : Nat) (threshold : ℚ) :
    Nat → Nat → Nat → ℚ → ℚ → List ℚ → ℚ → StopReason × Nat × ℚ
  | 0, _, _, _, totalRew, _, _ => (.depthLimit, 0, totalRew)
  | fuel + 1, d, s, gamma, totalRew, window, windowSum =>
    let sr := stepSRV m ρ d s
    let totalRew2 := totalRew + gamma * sr.2
    let window2 := window ++ [gamma * sr.2]
    let windowSum2 := windowSum + gamma * sr.2
    let window3 := if windowSize < window2.length then window2.tail else window2
    let windowSum3 :=
      if windowSize < window2.length then windowSum2 - window2.headD 0 else windowSum2
    if m.isTerminal sr.1 then (.terminal, 1, totalRew2)
    else if minDepth ≤ d ∧ window3.length = windowSize ∧
        rabs (window3.getLastD 0 - windowSum3 / (windowSize : ℚ)) < threshold then
      (.converged, 1, totalRew2)
    else
      let r := adaptiveRunVarFrom m ρ minDepth windowSize threshold fuel (d + 1)
        sr.1 (gamma * m.getDiscount) totalRew2 window3 windowSum3
      (r.1, r.2.1 + 1, r.2.2)

/-- Number of steps `adaptiveRolloutVar m s maxDepth ρ minDepth windowSize
threshold` actually executes before stopping. -/
def adaptiveStepsV (m : GenModelV) (s : Nat) (maxDepth : Nat) (ρ : Nat → Nat)
    (minDepth windowSize : Nat) (threshold : ℚ) : Nat :=
  (adaptiveRunVarFrom m ρ minDepth windowSize threshold maxDepth 0 s 1 0 [] 0).2.1

/-- A small concrete fixed-action-space model, used to instantiate the
general theorems on explicit inputs: two actions, reward 1 per step, states
drift upward, states at 10 and beyond are terminal, discount 1/2. -/
def exM : GenModel where
  getA := 2
  sampleSR := fun s a r => (s + a + r, 1)
  isTerminal := fun s => decide (10 ≤ s)
  getDiscount := 1 / 2

/-- The identity random stream, for concrete instantiations. -/
def exStream : Nat → Nat := fun n => n

/-- A one-action, zero-reward, never-terminal concrete model. -/
def exZ : GenModel where
  getA := 1
  sampleSR := fun s _ _ => (s, 0)
  isTerminal := fun _ => false
  getDiscount := 1

/-- The all-zero random stream. -/
def exZeroStream : Nat → Nat := fun _ => 0

/-- A concrete variable-action-space model with a genuinely state-dependent
action count: state `s` offers `s % 3 + 1` actions. -/
def exMV : GenModelV where
  getA := fun s => s % 3 + 1
  sampleSR := fun s a r => (s + a + r, 1)
  isTerminal := fun s => decide (10 ≤ s)
  getDiscount := 1 / 2

/-- Number of states of the tiger problem built by `makeTigerProblem`. -/
def tigerS : Nat := 2

/-- Number of actions of the tiger problem. -/
def tigerA : Nat := 3

/-- Number of observations of the tiger problem. -/
def tigerO : Nat := 2

/-- Action index of listening. -/
def aListen : Fin 3 := 0

/-- Action index of opening the left door. -/
def aLeft : Fin 3 := 1

/-- Action index of opening the right door. -/
def aRight : Fin 3 := 2

/-- State (and observation) index: the tiger is behind the left door. -/
def tigLeft : Fin 2 := 0

/-- State (and observation) index: the tiger is behind the right door. -/
def tigRight : Fin 2 := 1

/-- Transition table of `makeTigerProblem`, indexed state → action → next
state.  Listening leaves the state unchanged; opening either door reshuffles
the hidden state uniformly over the `tigerS` states. -/
def tigerT (s : Fin 2) (a : Fin 3) (s1 : Fin 2) : ℚ :=
  if a = aListen then (if s1 = s then 1 else 0) else 1 / 2

/-- Reward table of `makeTigerProblem`, indexed state → action → next state
(the reward does not depend on the next state).  Listening costs 1; opening
the door opposite the tiger yields 10, opening the tiger's door costs 100. -/
def tigerR (s : Fin 2) (a : Fin 3) (_s1 : Fin 2) : ℚ :=
  if a = aListen then -1
  else if a = aLeft then (if s = tigRight then 10 else -100)
  else (if s = tigLeft then 10 else -100)

/-- Observation table of `makeTigerProblem`, indexed next state → action →
observation.  Listening reports the tiger's position correctly with
probability 0.85; opening a door gives a uniform, uninformative
observation. -/
def tigerZ (s1 : Fin 2) (a : Fin 3) (o : Fin 2) : ℚ :=
  if a = aListen then (if o = s1 then 85 / 100 else 15 / 100) else 1 / 2

theorem rabs_nonneg (q : ℚ) : 0 ≤ rabs q := by
  rw [rabs]
  split
  · linarith
  · linarith [not_lt.mp (by assumption : ¬ q < 0)]

theorem rabs_eq_abs (q : ℚ) : rabs q = |q| := by
  rw [rabs]
  split
  · rw [abs_of_neg (by assumption)]
  · rw [abs_of_nonneg (not_lt.mp (by assumption))]

theorem adaptiveFrom_eq_rolloutFrom_of_window (m : GenModel) (ρ : Nat → Nat)
    (minDepth windowSize : Nat) (threshold : ℚ) :
    ∀ fuel d s gamma totalRew window windowSum,
      fuel + window.length ≤ windowSize →
      adaptiveFrom m ρ minDepth windowSize threshold fuel d s gamma totalRew
        window windowSum = rolloutFrom m ρ fuel d s gamma totalRew := by
  intro fuel
  induction fuel with
  | zero => intro d s gamma totalRew window windowSum _; rfl
  | succ n ih =>
    intro d s gamma totalRew window windowSum h
    simp only [adaptiveFrom, rolloutFrom]
    have h1 : ¬ windowSize < (window ++ [gamma * (stepSR m ρ d s).2]).length := by
      simp only [List.length_append, List.length_cons, List.length_nil]
      omega
    simp only [if_neg h1]
    cases hT : m.isTerminal (stepSR m ρ d s).1 with
    | true => simp [hT]
    | false =>
      simp only [hT, Bool.false_eq_true, if_false]
      cases n with
      | zero =>
        split
        · rfl
        · rfl
      | succ k =>
        have h2 : ¬ (minDepth ≤ d ∧
            (window ++ [gamma * (stepSR m ρ d s).2]).length = windowSize ∧
            rabs ((window ++ [gamma * (stepSR m ρ d s).2]).getLastD 0 -
              (windowSum + gamma * (stepSR m ρ d s).2) / (windowSize : ℚ)) <
              threshold) := by
          rintro ⟨-, h2, -⟩
          simp only [List.length_append, List.length_cons, List.length_nil] at h2
          omega
        rw [if_neg h2]
        apply ih
        simp only [List.length_append, List.length_cons, List.length_nil]
        omega

theorem adaptiveFrom_eq_rolloutFrom_of_minDepth (m : GenModel) (ρ : Nat → Nat)
    (minDepth windowSize : Nat) (threshold : ℚ) :
    ∀ fuel d s gamma totalRew window windowSum,
      d + fuel ≤ minDepth →
      adaptiveFrom m ρ minDepth windowSize threshold fuel d s gamma totalRew
        window windowSum = rolloutFrom m ρ fuel d s gamma totalRew := by
  intro fuel
  induction fuel with
  | zero => intro d s gamma totalRew window windowSum _; rfl
  | succ n ih =>
    intro d s gamma totalRew window windowSum h
    simp only [adaptiveFrom, rolloutFrom]
    cases hT : m.isTerminal (stepSR m ρ d s).1 with
    | true => simp [hT]
    | false =>
      simp only [hT, Bool.false_eq_true, if_false]
      have h2 : ¬ minDepth ≤ d := by omega
      rw [if_neg (by rintro ⟨h2', -⟩; exact h2 h2')]
      apply ih
      omega

theorem adaptiveFrom_eq_rolloutFrom_of_threshold (m : GenModel) (ρ : Nat → Nat)
    (minDepth windowSize : Nat) (threshold : ℚ) (ht : threshold ≤ 0) :
    ∀ fuel d s gamma totalRew window windowSum,
      adaptiveFrom m ρ minDepth windowSize threshold fuel d s gamma totalRew
        window windowSum = rolloutFrom m ρ fuel d s gamma totalRew := by
  intro fuel
  induction fuel with
  | zero => intro d s gamma totalRew window windowSum; rfl
  | succ n ih =>
    intro d s gamma totalRew window windowSum
    simp only [adaptiveFrom, rolloutFrom]
    cases hT : m.isTerminal (stepSR m ρ d s).1 with
    | true => simp [hT]
    | false =>
      simp only [hT, Bool.false_eq_true, if_false]
      rw [if_neg ?hcheck]
      case hcheck =>
        rintro ⟨-, -, h3⟩
        exact absurd h3 (not_lt.mpr (le_trans ht (rabs_nonneg _)))
      apply ih

theorem adaptiveChkFrom_ok (m : GenModel) (ρ : Nat → Nat)
    (minDepth windowSize : Nat) (threshold : ℚ) (hW : 1 ≤ windowSize) :
    ∀ fuel d s gamma totalRew window windowSum,
      adaptiveChkFrom m ρ minDepth windowSize threshold fuel d s gamma totalRew
        window windowSum =
      .ok (adaptiveFrom m ρ minDepth windowSize threshold fuel d s gamma totalRew
        window windowSum) := by
  intro fuel
  induction fuel with
  | zero => intro d s gamma totalRew window windowSum; rfl
  | succ n ih =>
    intro d s gamma totalRew window windowSum
    simp only [adaptiveChkFrom, adaptiveFrom]
    cases hT : m.isTerminal (stepSR m ρ d s).1 with
    | true => simp [hT]
    | false =>
      simp only [hT, Bool.false_eq_true, if_false]
      generalize (if windowSize < (window ++ [gamma * (stepSR m ρ d s).2]).length
          then (window ++ [gamma * (stepSR m ρ d s).2]).tail
          else window ++ [gamma * (stepSR m ρ d s).2]) = w3
      generalize (if windowSize < (window ++ [gamma * (stepSR m ρ d s).2]).length
          then windowSum + gamma * (stepSR m ρ d s).2 -
            (window ++ [gamma * (stepSR m ρ d s).2]).headD 0
          else windowSum + gamma * (stepSR m ρ d s).2) = ws3
      by_cases h1 : minDepth ≤ d ∧ w3.length = windowSize
      · rw [if_pos h1, if_neg (by omega : ¬ windowSize = 0)]
        by_cases h2 : rabs (w3.getLastD 0 - ws3 / (windowSize : ℚ)) < threshold
        · rw [if_pos h2, if_pos ⟨h1.1, h1.2, h2⟩]
        · rw [if_neg h2, if_neg (by rintro ⟨-, -, h3⟩; exact h2 h3)]
          exact ih _ _ _ _ _ _
      · rw [if_neg h1, if_neg (by rintro ⟨ha, hb, -⟩; exact h1 ⟨ha, hb⟩)]
        exact ih _ _ _ _ _ _

/-- C1: for a fixed-action-space generative model, start state, depth bound
and random stream, `adaptiveRollout` with `windowSize ≥ maxDepth` or
`minDepth ≥ maxDepth` returns exactly the discounted sum `rollout` returns
on the same arguments. -/
theorem claim_C1 (m : GenModel) (s maxDepth : Nat) (ρ : Nat → Nat)
    (minDepth windowSize : Nat) (threshold : ℚ)
    (h : maxDepth ≤ windowSize ∨ maxDepth ≤ minDepth) :
    adaptiveRollout m s maxDepth ρ minDepth windowSize threshold =
      rollout m s maxDepth ρ := by
  cases h with
  | inl h =>
    exact adaptiveFrom_eq_rolloutFrom_of_window m ρ minDepth windowSize threshold
      maxDepth 0 s 1 0 [] 0 (by simpa using h)
  | inr h =>
    exact adaptiveFrom_eq_rolloutFrom_of_minDepth m ρ minDepth windowSize threshold
      maxDepth 0 s 1 0 [] 0 (by omega)

theorem claim_C1_witness :
    (3 ≤ 5 ∨ 3 ≤ 0) ∧
      adaptiveRollout exM 0 3 exStream 0 5 (1 / 100) = rollout exM 0 3 exStream :=
  ⟨Or.inl (by decide), claim_C1 exM 0 3 exStream 0 5 (1 / 100) (Or.inl (by decide))⟩

/-- C10: with `threshold ≤ 0` (and a positive window size) the strict
comparison of the convergence check can never hold, so `adaptiveRollout`
returns exactly what `rollout` returns on the same model, state, depth bound
and random stream. -/
theorem claim_C10 (m : GenModel) (s maxDepth : Nat) (ρ : Nat → Nat)
    (minDepth windowSize : Nat) (threshold : ℚ)
    (ht : threshold ≤ 0) (_hW : 1 ≤ windowSize) :
    adaptiveRollout m s maxDepth ρ minDepth windowSize threshold =
      rollout m s maxDepth ρ :=
  adaptiveFrom_eq_rolloutFrom_of_threshold m ρ minDepth windowSize threshold ht
    maxDepth 0 s 1 0 [] 0

theorem claim_C10_witness :
    (-1 : ℚ) ≤ 0 ∧ 1 ≤ 2 ∧
      adaptiveRollout exM 0 3 exStream 0 2 (-1) = rollout exM 0 3 exStream :=
  ⟨by norm_num, by decide, claim_C10 exM 0 3 exStream 0 2 (-1) (by norm_num) (by decide)⟩

/-- C6, counterexample to the claim as stated: a negative threshold is not
rejected at configuration time.  With `threshold = -1` the adaptive rollout
executes three full simulation steps on the concrete model `exM` and returns
an ordinary discounted sum; no failure is produced before (or during) the
simulation. -/
theorem claim_C6_counterexample :
    adaptiveSteps exM 0 3 exStream 0 2 (-1) = 3 ∧
      adaptiveRollout exM 0 3 exStream 0 2 (-1) = 7 / 4 := by
  refine ⟨?_, ?_⟩ <;>
    norm_num [adaptiveSteps, adaptiveRollout, adaptiveRunFrom, adaptiveFrom,
      stepSR, exM, exStream, uniformDraw, rabs]

/-- C6, amended: `adaptiveRollout` performs no validation of its threshold.
A negative threshold is accepted and the simulation runs normally; the
convergence check can never fire, so the run reports no error and returns
exactly the plain `rollout` value. -/
theorem claim_C6 (m : GenModel) (s maxDepth : Nat) (ρ : Nat → Nat)
    (minDepth windowSize : Nat) (threshold : ℚ)
    (ht : threshold < 0) (hW : 1 ≤ windowSize) :
    adaptiveRolloutChk m s maxDepth ρ minDepth windowSize threshold =
      .ok (rollout m s maxDepth ρ) :=
  (adaptiveChkFrom_ok m ρ minDepth windowSize threshold hW maxDepth 0 s 1 0
    [] 0).trans
    (congrArg Except.ok (adaptiveFrom_eq_rolloutFrom_of_threshold m ρ minDepth
      windowSize threshold (le_of_lt ht) maxDepth 0 s 1 0 [] 0))

theorem claim_C6_witness :
    (-1 : ℚ) < 0 ∧ 1 ≤ 2 ∧
      adaptiveRolloutChk exM 0 3 exStream 0 2 (-1) =
        .ok (rollout exM 0 3 exStream) :=
  ⟨by norm_num, by decide, claim_C6 exM 0 3 exStream 0 2 (-1) (by norm_num) (by decide)⟩

theorem trajS_zero (m : GenModel) (ρ : Nat → Nat) (s : Nat) :
    trajS m ρ s 0 = s := rfl

theorem trajS_succ (m : GenModel) (ρ : Nat → Nat) (s d : Nat) :
    trajS m ρ s (d + 1) = (stepSR m ρ d (trajS m ρ s d)).1 := rfl

theorem trajR_def (m : GenModel) (ρ : Nat → Nat) (s d : Nat) :
    trajR m ρ s d = (stepSR m ρ d (trajS m ρ s d)).2 := rfl

theorem rolloutFrom_eq_sum (m : GenModel) (ρ : Nat → Nat) (s : Nat) :
    ∀ fuel d totalRew,
      rolloutFrom m ρ fuel d (trajS m ρ s d) (m.getDiscount ^ d) totalRew =
        totalRew + ∑ j ∈ Finset.range (numStepsFrom m ρ s fuel d),
          m.getDiscount ^ (d + j) * trajR m ρ s (d + j) := by
  intro fuel
  induction fuel with
  | zero => intro d totalRew; simp [rolloutFrom, numStepsFrom]
  | succ n ih =>
    intro d totalRew
    simp only [rolloutFrom, numStepsFrom, ← trajS_succ, ← trajR_def]
    cases hT : m.isTerminal (trajS m ρ s (d + 1)) with
    | true =>
      simp [hT, Finset.sum_range_one]
    | false =>
      simp only [hT, Bool.false_eq_true, if_false]
      rw [← pow_succ, ih (d + 1)]
      rw [show 1 + numStepsFrom m ρ s n (d + 1) =
        numStepsFrom m ρ s n (d + 1) + 1 by omega]
      rw [Finset.sum_range_succ']
      have hsum : ∑ x ∈ Finset.range (numStepsFrom m ρ s n (d + 1)),
          m.getDiscount ^ (d + (x + 1)) * trajR m ρ s (d + (x + 1)) =
        ∑ x ∈ Finset.range (numStepsFrom m ρ s n (d + 1)),
          m.getDiscount ^ (d + 1 + x) * trajR m ρ s (d + 1 + x) :=
        Finset.sum_congr rfl (fun x _ => by
          rw [show d + (x + 1) = d + 1 + x by omega])
      rw [hsum]
      simp only [Nat.add_zero]
      ring

theorem numStepsFrom_le (m : GenModel) (ρ : Nat → Nat) (s : Nat) :
    ∀ fuel d, numStepsFrom m ρ s fuel d ≤ fuel := by
  intro fuel
  induction fuel with
  | zero => intro d; simp [numStepsFrom]
  | succ n ih =>
    intro d
    simp only [numStepsFrom]
    split
    · omega
    · have := ih (d + 1); omega

theorem numStepsFrom_not_terminal (m : GenModel) (ρ : Nat → Nat) (s : Nat) :
    ∀ fuel d j, j + 1 < numStepsFrom m ρ s fuel d →
      m.isTerminal (trajS m ρ s (d + j + 1)) = false := by
  intro fuel
  induction fuel with
  | zero => intro d j h; simp [numStepsFrom] at h
  | succ n ih =>
    intro d j h
    simp only [numStepsFrom] at h
    split at h
    · omega
    · rename_i hT
      cases j with
      | zero =>
        simpa using Bool.of_not_eq_true hT
      | succ k =>
        have := ih (d + 1) k (by omega)
        rw [show d + (k + 1) + 1 = d + 1 + k + 1 by omega]
        exact this

theorem numStepsFrom_terminal (m : GenModel) (ρ : Nat → Nat) (s : Nat) :
    ∀ fuel d, numStepsFrom m ρ s fuel d < fuel →
      m.isTerminal (trajS m ρ s (d + numStepsFrom m ρ s fuel d)) = true := by
  intro fuel
  induction fuel with
  | zero => intro d h; omega
  | succ n ih =>
    intro d h
    cases hT : m.isTerminal (trajS m ρ s (d + 1)) with
    | true => simp [numStepsFrom, hT]
    | false =>
      simp only [numStepsFrom, hT, Bool.false_eq_true, if_false] at h ⊢
      have h2 := ih (d + 1) (by omega)
      rw [show d + (1 + numStepsFrom m ρ s n (d + 1)) =
        d + 1 + numStepsFrom m ρ s n (d + 1) by omega]
      exact h2

theorem trajSV_zero (m : GenModelV) (ρ : Nat → Nat) (s : Nat) :
    trajSV m ρ s 0 = s := rfl

theorem trajSV_succ (m : GenModelV) (ρ : Nat → Nat) (s d : Nat) :
    trajSV m ρ s (d + 1) = (stepSRV m ρ d (trajSV m ρ s d)).1 := rfl

theorem trajRV_def (m : GenModelV) (ρ : Nat → Nat) (s d : Nat) :
    trajRV m ρ s d = (stepSRV m ρ d (trajSV m ρ s d)).2 := rfl

theorem rolloutVarFrom_eq_sum (m : GenModelV) (ρ : Nat → Nat) (s : Nat) :
    ∀ fuel d totalRew,
      rolloutVarFrom m ρ fuel d (trajSV m ρ s d) (m.getDiscount ^ d) totalRew =
        totalRew + ∑ j ∈ Finset.range (numStepsVFrom m ρ s fuel d),
          m.getDiscount ^ (d + j) * trajRV m ρ s (d + j) := by
  intro fuel
  induction fuel with
  | zero => intro d totalRew; simp [rolloutVarFrom, numStepsVFrom]
  | succ n ih =>
    intro d totalRew
    simp only [rolloutVarFrom, numStepsVFrom, ← trajSV_succ, ← trajRV_def]
    cases hT : m.isTerminal (trajSV m ρ s (d + 1)) with
    | true =>
      simp [hT, Finset.sum_range_one]
    | false =>
      simp only [hT, Bool.false_eq_true, if_false]
      rw [← pow_succ, ih (d + 1)]
      rw [show 1 + numStepsVFrom m ρ s n (d + 1) =
        numStepsVFrom m ρ s n (d + 1) + 1 by omega]
      rw [Finset.sum_range_succ']
      have hsum : ∑ x ∈ Finset.range (numStepsVFrom m ρ s n (d + 1)),
          m.getDiscount ^ (d + (x + 1)) * trajRV m ρ s (d + (x + 1)) =
        ∑ x ∈ Finset.range (numStepsVFrom m ρ s n (d + 1)),
          m.getDiscount ^ (d + 1 + x) * trajRV m ρ s (d + 1 + x) :=
        Finset.sum_congr rfl (fun x _ => by
          rw [show d + (x + 1) = d + 1 + x by omega])
      rw [hsum]
      simp only [Nat.add_zero]
      ring

theorem numStepsVFrom_le (m : GenModelV) (ρ : Nat → Nat) (s : Nat) :
    ∀ fuel d, numStepsVFrom m ρ s fuel d ≤ fuel := by
  intro fuel
  induction fuel with
  | zero => intro d; simp [numStepsVFrom]
  | succ n ih =>
    intro d
    simp only [numStepsVFrom]
    split
    · omega
    · have := ih (d + 1); omega

theorem numStepsVFrom_not_terminal (m : GenModelV) (ρ : Nat → Nat) (s : Nat) :
    ∀ fuel d j, j + 1 < numStepsVFrom m ρ s fuel d →
      m.isTerminal (trajSV m ρ s (d + j + 1)) = false := by
  intro fuel
  induction fuel with
  | zero => intro d j h; simp [numStepsVFrom] at h
  | succ n ih =>
    intro d j h
    simp only [numStepsVFrom] at h
    split at h
    · omega
    · rename_i hT
      cases j with
      | zero =>
        simpa using Bool.of_not_eq_true hT
      | succ k =>
        have := ih (d + 1) k (by omega)
        rw [show d + (k + 1) + 1 = d + 1 + k + 1 by omega]
        exact this

theorem numStepsVFrom_terminal (m : GenModelV) (ρ : Nat → Nat) (s : Nat) :
    ∀ fuel d, numStepsVFrom m ρ s fuel d < fuel →
      m.isTerminal (trajSV m ρ s (d + numStepsVFrom m ρ s fuel d)) = true := by
  intro fuel
  induction fuel with
  | zero => intro d h; omega
  | succ n ih =>
    intro d h
    cases hT : m.isTerminal (trajSV m ρ s (d + 1)) with
    | true => simp [numStepsVFrom, hT]
    | false =>
      simp only [numStepsVFrom, hT, Bool.false_eq_true, if_false] at h ⊢
      have h2 := ih (d + 1) (by omega)
      rw [show d + (1 + numStepsVFrom m ρ s n (d + 1)) =
        d + 1 + numStepsVFrom m ρ s n (d + 1) by omega]
      exact h2

/-- C2: for every generative model — fixed or variable action space — the
rollout returns the running discounted sum in which the reward of the step
taken at depth `d` is weighted by `getDiscount ^ d`; it simulates at most
`maxDepth` steps (`numSteps` / `numStepsV` of them), stops immediately after
the first step whose resulting state is terminal — that step's discounted
reward included — and returns 0 when `maxDepth = 0`. -/
theorem claim_C2 (m : GenModel) (mv : GenModelV) (s maxDepth : Nat)
    (ρ : Nat → Nat) :
    (rollout m s maxDepth ρ =
        (∑ d ∈ Finset.range (numSteps m ρ s maxDepth),
          m.getDiscount ^ d * trajR m ρ s d) ∧
      numSteps m ρ s maxDepth ≤ maxDepth ∧
      (∀ j, j + 1 < numSteps m ρ s maxDepth →
        m.isTerminal (trajS m ρ s (j + 1)) = false) ∧
      (numSteps m ρ s maxDepth < maxDepth →
        m.isTerminal (trajS m ρ s (numSteps m ρ s maxDepth)) = true) ∧
      rollout m s 0 ρ = 0) ∧
    (rolloutVar mv s maxDepth ρ =
        (∑ d ∈ Finset.range (numStepsV mv ρ s maxDepth),
          mv.getDiscount ^ d * trajRV mv ρ s d) ∧
      numStepsV mv ρ s maxDepth ≤ maxDepth ∧
      (∀ j, j + 1 < numStepsV mv ρ s maxDepth →
        mv.isTerminal (trajSV mv ρ s (j + 1)) = false) ∧
      (numStepsV mv ρ s maxDepth < maxDepth →
        mv.isTerminal (trajSV mv ρ s (numStepsV mv ρ s maxDepth)) = true) ∧
      rolloutVar mv s 0 ρ = 0) := by
  constructor
  · refine ⟨?_, numStepsFrom_le m ρ s maxDepth 0, ?_, ?_, rfl⟩
    · have h := rolloutFrom_eq_sum m ρ s maxDepth 0 0
      simp only [trajS_zero, pow_zero, Nat.zero_add, zero_add] at h
      exact h
    · intro j hj
      have h := numStepsFrom_not_terminal m ρ s maxDepth 0 j hj
      simpa using h
    · intro h
      have h2 := numStepsFrom_terminal m ρ s maxDepth 0 h
      simpa using h2
  · refine ⟨?_, numStepsVFrom_le mv ρ s maxDepth 0, ?_, ?_, rfl⟩
    · have h := rolloutVarFrom_eq_sum mv ρ s maxDepth 0 0
      simp only [trajSV_zero, pow_zero, Nat.zero_add, zero_add] at h
      exact h
    · intro j hj
      have h := numStepsVFrom_not_terminal mv ρ s maxDepth 0 j hj
      simpa using h
    · intro h
      have h2 := numStepsVFrom_terminal mv ρ s maxDepth 0 h
      simpa using h2

theorem claim_C2_witness :
    numSteps exM exStream 0 3 ≤ 3 ∧
      rollout exM 0 3 exStream =
        (∑ d ∈ Finset.range (numSteps exM exStream 0 3),
          exM.getDiscount ^ d * trajR exM exStream 0 d) ∧
      numStepsV exMV exStream 0 3 ≤ 3 ∧
      rolloutVar exMV 0 3 exStream =
        ∑ d ∈ Finset.range (numStepsV exMV exStream 0 3),
          exMV.getDiscount ^ d * trajRV exMV exStream 0 d :=
  ⟨(claim_C2 exM exMV 0 3 exStream).1.2.1,
    (claim_C2 exM exMV 0 3 exStream).1.1,
    (claim_C2 exM exMV 0 3 exStream).2.2.1,
    (claim_C2 exM exMV 0 3 exStream).2.1⟩

theorem adaptiveRunFrom_value (m : GenModel) (ρ : Nat → Nat)
    (minDepth windowSize : Nat) (threshold : ℚ) :
    ∀ fuel d s gamma totalRew window windowSum,
      (adaptiveRunFrom m ρ minDepth windowSize threshold fuel d s gamma totalRew
        window windowSum).2.2 =
      adaptiveFrom m ρ minDepth windowSize threshold fuel d s gamma totalRew
        window windowSum := by
  intro fuel
  induction fuel with
  | zero => intro d s gamma totalRew window windowSum; rfl
  | succ n ih =>
    intro d s gamma totalRew window windowSum
    simp only [adaptiveRunFrom, adaptiveFrom]
    generalize (if windowSize < (window ++ [gamma * (stepSR m ρ d s).2]).length
        then (window ++ [gamma * (stepSR m ρ d s).2]).tail
        else window ++ [gamma * (stepSR m ρ d s).2]) = w3
    generalize (if windowSize < (window ++ [gamma * (stepSR m ρ d s).2]).length
        then windowSum + gamma * (stepSR m ρ d s).2 -
          (window ++ [gamma * (stepSR m ρ d s).2]).headD 0
        else windowSum + gamma * (stepSR m ρ d s).2) = ws3
    cases hT : m.isTerminal (stepSR m ρ d s).1 with
    | true => simp [hT]
    | false =>
      simp only [hT, Bool.false_eq_true, if_false]
      by_cases h2 : minDepth ≤ d ∧ w3.length = windowSize ∧
          rabs (w3.getLastD 0 - ws3 / (windowSize : ℚ)) < threshold
      · rw [if_pos h2, if_pos h2]
      · rw [if_neg h2, if_neg h2]
        exact ih _ _ _ _ _ _

theorem adaptiveRunFrom_eq_rolloutFrom (m : GenModel) (ρ : Nat → Nat)
    (minDepth windowSize : Nat) (threshold : ℚ) :
    ∀ fuel d s gamma totalRew window windowSum,
      (adaptiveRunFrom m ρ minDepth windowSize threshold fuel d s gamma totalRew
        window windowSum).2.2 =
      rolloutFrom m ρ
        (adaptiveRunFrom m ρ minDepth windowSize threshold fuel d s gamma totalRew
          window windowSum).2.1 d s gamma totalRew := by
  intro fuel
  induction fuel with
  | zero => intro d s gamma totalRew window windowSum; rfl
  | succ n ih =>
    intro d s gamma totalRew window windowSum
    simp only [adaptiveRunFrom]
    generalize (if windowSize < (window ++ [gamma * (stepSR m ρ d s).2]).length
        then (window ++ [gamma * (stepSR m ρ d s).2]).tail
        else window ++ [gamma * (stepSR m ρ d s).2]) = w3
    generalize (if windowSize < (window ++ [gamma * (stepSR m ρ d s).2]).length
        then windowSum + gamma * (stepSR m ρ d s).2 -
          (window ++ [gamma * (stepSR m ρ d s).2]).headD 0
        else windowSum + gamma * (stepSR m ρ d s).2) = ws3
    cases hT : m.isTerminal (stepSR m ρ d s).1 with
    | true => simp [rolloutFrom, hT]
    | false =>
      simp only [hT, Bool.false_eq_true, if_false]
      by_cases h2 : minDepth ≤ d ∧ w3.length = windowSize ∧
          rabs (w3.getLastD 0 - ws3 / (windowSize : ℚ)) < threshold
      · rw [if_pos h2]
        simp [rolloutFrom, hT]
      · rw [if_neg h2]
        simp only [rolloutFrom, hT, Bool.false_eq_true, if_false]
        exact ih _ _ _ _ _ _

theorem adaptiveRunFrom_steps_le (m : GenModel) (ρ : Nat → Nat)
    (minDepth windowSize : Nat) (threshold : ℚ) :
    ∀ fuel d s gamma totalRew window windowSum,
      (adaptiveRunFrom m ρ minDepth windowSize threshold fuel d s gamma totalRew
        window windowSum).2.1 ≤ fuel := by
  intro fuel
  induction fuel with
  | zero => intro d s gamma totalRew window windowSum; exact Nat.le_refl 0
  | succ n ih =>
    intro d s gamma totalRew window windowSum
    simp only [adaptiveRunFrom]
    generalize (if windowSize < (window ++ [gamma * (stepSR m ρ d s).2]).length
        then (window ++ [gamma * (stepSR m ρ d s).2]).tail
        else window ++ [gamma * (stepSR m ρ d s).2]) = w3
    generalize (if windowSize < (window ++ [gamma * (stepSR m ρ d s).2]).length
        then windowSum + gamma * (stepSR m ρ d s).2 -
          (window ++ [gamma * (stepSR m ρ d s).2]).headD 0
        else windowSum + gamma * (stepSR m ρ d s).2) = ws3
    cases hT : m.isTerminal (stepSR m ρ d s).1 with
    | true => simp [hT]
    | false =>
      simp only [hT, Bool.false_eq_true, if_false]
      by_cases h2 : minDepth ≤ d ∧ w3.length = windowSize ∧
          rabs (w3.getLastD 0 - ws3 / (windowSize : ℚ)) < threshold
      · rw [if_pos h2]
        exact Nat.succ_le_succ (Nat.zero_le n)
      · rw [if_neg h2]
        exact Nat.succ_le_succ (ih (d + 1) (stepSR m ρ d s).1
          (gamma * m.getDiscount) (totalRew + gamma * (stepSR m ρ d s).2) w3 ws3)

theorem adaptiveRunVarFrom_value (m : GenModelV) (ρ : Nat → Nat)
    (minDepth windowSize : Nat) (threshold : ℚ) :
    ∀ fuel d s gamma totalRew window windowSum,
      (adaptiveRunVarFrom m ρ minDepth windowSize threshold fuel d s gamma
        totalRew window windowSum).2.2 =
      adaptiveVarFrom m ρ minDepth windowSize threshold fuel d s gamma totalRew
        window windowSum := by
  intro fuel
  induction fuel with
  | zero => intro d s gamma totalRew window windowSum; rfl
  | succ n ih =>
    intro d s gamma totalRew window windowSum
    simp only [adaptiveRunVarFrom, adaptiveVarFrom]
    generalize (if windowSize < (window ++ [gamma * (stepSRV m ρ d s).2]).length
        then (window ++ [gamma * (stepSRV m ρ d s).2]).tail
        else window ++ [gamma * (stepSRV m ρ d s).2]) = w3
    generalize (if windowSize < (window ++ [gamma * (stepSRV m ρ d s).2]).length
        then windowSum + gamma * (stepSRV m ρ d s).2 -
          (window ++ [gamma * (stepSRV m ρ d s).2]).headD 0
        else windowSum + gamma * (stepSRV m ρ d s).2) = ws3
    cases hT : m.isTerminal (stepSRV m ρ d s).1 with
    | true => simp [hT]
    | false =>
      simp only [hT, Bool.false_eq_true, if_false]
      by_cases h2 : minDepth ≤ d ∧ w3.length = windowSize ∧
          rabs (w3.getLastD 0 - ws3 / (windowSize : ℚ)) < threshold
      · rw [if_pos h2, if_pos h2]
      · rw [if_neg h2, if_neg h2]
        exact ih _ _ _ _ _ _

theorem adaptiveRunVarFrom_eq_rolloutVarFrom (m : GenModelV) (ρ : Nat → Nat)
    (minDepth windowSize : Nat) (threshold : ℚ) :
    ∀ fuel d s gamma totalRew window windowSum,
      (adaptiveRunVarFrom m ρ minDepth windowSize threshold fuel d s gamma
        totalRew window windowSum).2.2 =
      rolloutVarFrom m ρ
        (adaptiveRunVarFrom m ρ minDepth windowSize threshold fuel d s gamma
          totalRew window windowSum).2.1 d s gamma totalRew := by
  intro fuel
  induction fuel with
  | zero => intro d s gamma totalRew window windowSum; rfl
  | succ n ih =>
    intro d s gamma totalRew window windowSum
    simp only [adaptiveRunVarFrom]
    generalize (if windowSize < (window ++ [gamma * (stepSRV m ρ d s).2]).length
        then (window ++ [gamma * (stepSRV m ρ d s).2]).tail
        else window ++ [gamma * (stepSRV m ρ d s).2]) = w3
    generalize (if windowSize < (window ++ [gamma * (stepSRV m ρ d s).2]).length
        then windowSum + gamma * (stepSRV m ρ d s).2 -
          (window ++ [gamma * (stepSRV m ρ d s).2]).headD 0
        else windowSum + gamma * (stepSRV m ρ d s).2) = ws3
    cases hT : m.isTerminal (stepSRV m ρ d s).1 with
    | true => simp [rolloutVarFrom, hT]
    | false =>
      simp only [hT, Bool.false_eq_true, if_false]
      by_cases h2 : minDepth ≤ d ∧ w3.length = windowSize ∧
          rabs (w3.getLastD 0 - ws3 / (windowSize : ℚ)) < threshold
      · rw [if_pos h2]
        simp [rolloutVarFrom, hT]
      · rw [if_neg h2]
        simp only [rolloutVarFrom, hT, Bool.false_eq_true, if_false]
        exact ih _ _ _ _ _ _

theorem adaptiveRunVarFrom_steps_le (m : GenModelV) (ρ : Nat → Nat)
    (minDepth windowSize : Nat) (threshold : ℚ) :
    ∀ fuel d s gamma totalRew window windowSum,
      (adaptiveRunVarFrom m ρ minDepth windowSize threshold fuel d s gamma
        totalRew window windowSum).2.1 ≤ fuel := by
  intro fuel
  induction fuel with
  | zero => intro d s gamma totalRew window windowSum; exact Nat.le_refl 0
  | succ n ih =>
    intro d s gamma totalRew window windowSum
    simp only [adaptiveRunVarFrom]
    generalize (if windowSize < (window ++ [gamma * (stepSRV m ρ d s).2]).length
        then (window ++ [gamma * (stepSRV m ρ d s).2]).tail
        else window ++ [gamma * (stepSRV m ρ d s).2]) = w3
    generalize (if windowSize < (window ++ [gamma * (stepSRV m ρ d s).2]).length
        then windowSum + gamma * (stepSRV m ρ d s).2 -
          (window ++ [gamma * (stepSRV m ρ d s).2]).headD 0
        else windowSum + gamma * (stepSRV m ρ d s).2) = ws3
    cases hT : m.isTerminal (stepSRV m ρ d s).1 with
    | true => simp [hT]
    | false =>
      simp only [hT, Bool.false_eq_true, if_false]
      by_cases h2 : minDepth ≤ d ∧ w3.length = windowSize ∧
          rabs (w3.getLastD 0 - ws3 / (windowSize : ℚ)) < threshold
      · rw [if_pos h2]
        exact Nat.succ_le_succ (Nat.zero_le n)
      · rw [if_neg h2]
        exact Nat.succ_le_succ (ih (d + 1) (stepSRV m ρ d s).1
          (gamma * m.getDiscount) (totalRew + gamma * (stepSRV m ρ d s).2) w3 ws3)

/-- C3: for every generative model — fixed or variable action space — start
state, parameter setting and random stream, the value the adaptive rollout
returns equals the value the plain rollout returns when run with `maxDepth`
set to the number of steps the adaptive run actually executed; early
termination only truncates the simulation, never altering any
already-accumulated term.  The executed step count never exceeds
`maxDepth`. -/
theorem claim_C3 (m : GenModel) (mv : GenModelV) (s maxDepth : Nat)
    (ρ : Nat → Nat) (minDepth windowSize : Nat) (threshold : ℚ) :
    (adaptiveRollout m s maxDepth ρ minDepth windowSize threshold =
        rollout m s (adaptiveSteps m s maxDepth ρ minDepth windowSize threshold)
          ρ ∧
      adaptiveSteps m s maxDepth ρ minDepth windowSize threshold ≤ maxDepth) ∧
    (adaptiveRolloutVar mv s maxDepth ρ minDepth windowSize threshold =
        rolloutVar mv s
          (adaptiveStepsV mv s maxDepth ρ minDepth windowSize threshold) ρ ∧
      adaptiveStepsV mv s maxDepth ρ minDepth windowSize threshold ≤
        maxDepth) := by
  constructor
  · constructor
    · have h1 := adaptiveRunFrom_value m ρ minDepth windowSize threshold
        maxDepth 0 s 1 0 [] 0
      have h2 := adaptiveRunFrom_eq_rolloutFrom m ρ minDepth windowSize
        threshold maxDepth 0 s 1 0 [] 0
      exact h1.symm.trans h2
    · exact adaptiveRunFrom_steps_le m ρ minDepth windowSize threshold
        maxDepth 0 s 1 0 [] 0
  · constructor
    · have h1 := adaptiveRunVarFrom_value mv ρ minDepth windowSize threshold
        maxDepth 0 s 1 0 [] 0
      have h2 := adaptiveRunVarFrom_eq_rolloutVarFrom mv ρ minDepth windowSize
        threshold maxDepth 0 s 1 0 [] 0
      exact h1.symm.trans h2
    · exact adaptiveRunVarFrom_steps_le mv ρ minDepth windowSize threshold
        maxDepth 0 s 1 0 [] 0

/-- C9: under the precondition `windowSize ≥ 1`, every evaluation of the
adaptive rollout's convergence check is well defined — the instrumented run
never reaches the branch that reads the back element of an empty window and
divides by a zero window size, and returns exactly the plain result.  For
`windowSize = 0` with `minDepth < maxDepth` that guarded branch is reachable:
the concrete never-terminal model `exZ` reaches it in one step. -/
theorem claim_C9 :
    (∀ (m : GenModel) (ρ : Nat → Nat) (minDepth windowSize : Nat)
      (threshold : ℚ), 1 ≤ windowSize →
      ∀ fuel d s gamma totalRew window windowSum,
        adaptiveChkFrom m ρ minDepth windowSize threshold fuel d s gamma totalRew
          window windowSum =
        .ok (adaptiveFrom m ρ minDepth windowSize threshold fuel d s gamma totalRew
          window windowSum)) ∧
    adaptiveRolloutChk exZ 0 1 exZeroStream 0 0 (1 / 100) = .error () := by
  constructor
  · intro m ρ minDepth windowSize threshold hW
    exact adaptiveChkFrom_ok m ρ minDepth windowSize threshold hW
  · norm_num [adaptiveRolloutChk, adaptiveChkFrom, stepSR, exZ, exZeroStream,
      uniformDraw, rabs]

theorem claim_C9_witness :
    1 ≤ 2 ∧
      adaptiveChkFrom exM exStream 0 2 (1 / 100) 3 0 0 1 0 [] 0 =
        .ok (adaptiveFrom exM exStream 0 2 (1 / 100) 3 0 0 1 0 [] 0) :=
  ⟨by decide, claim_C9.1 exM exStream 0 2 (1 / 100) (by decide) 3 0 0 1 0 [] 0⟩

theorem discountedRew_def (m : GenModel) (ρ : Nat → Nat) (s d : Nat) :
    discountedRew m ρ s d = m.getDiscount ^ d * trajR m ρ s d := rfl

theorem tail_append_sum (l : List ℚ) (e : ℚ) :
    (l ++ [e]).tail.sum = l.sum + e - (l ++ [e]).headD 0 := by
  cases l with
  | nil => simp
  | cons a t => simp [List.sum_append]; ring

theorem specWindow_length (m : GenModel) (ρ : Nat → Nat) (s : Nat)
    (windowSize d : Nat) :
    (specWindow m ρ s windowSize d).length = d - (d - windowSize) := by
  simp [specWindow]

theorem specWindow_push (m : GenModel) (ρ : Nat → Nat) (s : Nat)
    (windowSize d : Nat) :
    (if windowSize <
        (specWindow m ρ s windowSize d ++ [discountedRew m ρ s d]).length
      then (specWindow m ρ s windowSize d ++ [discountedRew m ρ s d]).tail
      else specWindow m ρ s windowSize d ++ [discountedRew m ρ s d]) =
    specWindow m ρ s windowSize (d + 1) := by
  by_cases hW : windowSize ≤ d
  · rw [if_pos ?hc]
    case hc =>
      simp only [List.length_append, List.length_cons, List.length_nil,
        specWindow_length]
      omega
    rcases Nat.eq_zero_or_pos windowSize with hW0 | hW1
    · subst hW0
      have h1 : ((List.range d).map (discountedRew m ρ s)).drop (d - 0) = [] :=
        List.drop_eq_nil_of_le (by simp)
      have h2 : ((List.range (d + 1)).map (discountedRew m ρ s)).drop
          (d + 1 - 0) = [] :=
        List.drop_eq_nil_of_le (by simp)
      rw [specWindow, specWindow, h1, h2]
      rfl
    · rw [specWindow, specWindow, List.range_succ, List.map_append,
        List.drop_append_of_le_length (by simp; omega)]
      cases hx : ((List.range d).map (discountedRew m ρ s)).drop (d - windowSize) with
        | nil =>
          exfalso
          have hlen := congrArg List.length hx
          simp only [List.length_drop, List.length_map, List.length_range,
            List.length_nil] at hlen
          omega
        | cons a tl =>
          have ht : tl = ((List.range d).map (discountedRew m ρ s)).drop
              (d - windowSize + 1) := by
            have h2 := congrArg List.tail hx
            rw [List.tail_drop] at h2
            simpa using h2.symm
          rw [show d + 1 - windowSize = d - windowSize + 1 by omega, ← ht]
          simp
  · rw [if_neg ?hc]
    case hc =>
      simp only [List.length_append, List.length_cons, List.length_nil,
        specWindow_length]
      omega
    rw [specWindow, specWindow, List.range_succ, List.map_append,
      show d - windowSize = 0 by omega, show d + 1 - windowSize = 0 by omega]
    simp

theorem specWindow_sum_push (m : GenModel) (ρ : Nat → Nat) (s : Nat)
    (windowSize d : Nat) :
    (if windowSize <
        (specWindow m ρ s windowSize d ++ [discountedRew m ρ s d]).length
      then (specWindow m ρ s windowSize d).sum + discountedRew m ρ s d -
        (specWindow m ρ s windowSize d ++ [discountedRew m ρ s d]).headD 0
      else (specWindow m ρ s windowSize d).sum + discountedRew m ρ s d) =
    (specWindow m ρ s windowSize (d + 1)).sum := by
  rw [← specWindow_push m ρ s windowSize d]
  by_cases h : windowSize <
      (specWindow m ρ s windowSize d ++ [discountedRew m ρ s d]).length
  · rw [if_pos h, if_pos h, tail_append_sum]
  · rw [if_neg h, if_neg h]
    simp [List.sum_append]

theorem firesB_eq_true_iff (m : GenModel) (ρ : Nat → Nat) (s : Nat)
    (minDepth windowSize : Nat) (threshold : ℚ) (d : Nat) :
    firesB m ρ s minDepth windowSize threshold d = true ↔
      (minDepth ≤ d ∧
        (specWindow m ρ s windowSize (d + 1)).length = windowSize ∧
        rabs ((specWindow m ρ s windowSize (d + 1)).getLastD 0 -
          (specWindow m ρ s windowSize (d + 1)).sum / (windowSize : ℚ)) <
          threshold) := by
  simp only [firesB, Bool.and_eq_true, decide_eq_true_eq]
  tauto

theorem adaptiveRunFrom_converged_iff (m : GenModel) (ρ : Nat → Nat) (s : Nat)
    (minDepth windowSize : Nat) (threshold : ℚ) :
    ∀ fuel d totalRew,
      ((adaptiveRunFrom m ρ minDepth windowSize threshold fuel d (trajS m ρ s d)
        (m.getDiscount ^ d) totalRew (specWindow m ρ s windowSize d)
        ((specWindow m ρ s windowSize d).sum)).1 = .converged ↔
      ∃ k, d ≤ k ∧ k < d + fuel ∧
        (∀ j, d ≤ j → j ≤ k → m.isTerminal (trajS m ρ s (j + 1)) = false) ∧
        (∀ j, d ≤ j → j < k →
          firesB m ρ s minDepth windowSize threshold j = false) ∧
        firesB m ρ s minDepth windowSize threshold k = true) := by
  intro fuel
  induction fuel with
  | zero =>
    intro d totalRew
    simp only [adaptiveRunFrom]
    constructor
    · intro h
      simp at h
    · rintro ⟨k, hk1, hk2, -, -, -⟩
      omega
  | succ n ih =>
    intro d totalRew
    simp only [adaptiveRunFrom]
    rw [← trajS_succ m ρ s d, ← trajR_def m ρ s d, ← discountedRew_def m ρ s d,
      ← pow_succ, specWindow_push m ρ s windowSize d,
      specWindow_sum_push m ρ s windowSize d]
    cases hT : m.isTerminal (trajS m ρ s (d + 1)) with
    | true =>
      rw [if_pos rfl]
      constructor
      · intro h
        simp at h
      · rintro ⟨k, hk1, hk2, hterm, -, -⟩
        exact absurd (hterm d le_rfl hk1) (by simp [hT])
    | false =>
      rw [if_neg (by simp : ¬ (false = true))]
      by_cases hP : minDepth ≤ d ∧
          (specWindow m ρ s windowSize (d + 1)).length = windowSize ∧
          rabs ((specWindow m ρ s windowSize (d + 1)).getLastD 0 -
            (specWindow m ρ s windowSize (d + 1)).sum / (windowSize : ℚ)) <
            threshold
      · rw [if_pos hP]
        have hfd : firesB m ρ s minDepth windowSize threshold d = true := by
          rw [firesB_eq_true_iff]
          exact hP
        constructor
        · intro _
          refine ⟨d, le_rfl, by omega, ?_, ?_, hfd⟩
          · intro j hj1 hj2
            have hjd : j = d := by omega
            subst hjd
            exact hT
          · intro j hj1 hj2
            omega
        · intro _
          rfl
      · rw [if_neg hP]
        have hfd : firesB m ρ s minDepth windowSize threshold d = false := by
          rw [Bool.eq_false_iff]
          intro hcontra
          rw [firesB_eq_true_iff] at hcontra
          exact hP hcontra
        dsimp only
        rw [ih (d + 1) (totalRew + discountedRew m ρ s d)]
        constructor
        · rintro ⟨k, hk1, hk2, hterm, hfire, hfk⟩
          refine ⟨k, by omega, by omega, ?_, ?_, hfk⟩
          · intro j hj1 hj2
            rcases Nat.lt_or_ge j (d + 1) with h | h
            · have hjd : j = d := by omega
              subst hjd
              exact hT
            · exact hterm j h hj2
          · intro j hj1 hj2
            rcases Nat.lt_or_ge j (d + 1) with h | h
            · have hjd : j = d := by omega
              subst hjd
              exact hfd
            · exact hfire j h hj2
        · rintro ⟨k, hk1, hk2, hterm, hfire, hfk⟩
          have hkd : d + 1 ≤ k := by
            rcases Nat.lt_or_ge k (d + 1) with h | h
            · have hkd2 : k = d := by omega
              subst hkd2
              rw [hfd] at hfk
              cases hfk
            · exact h
          exact ⟨k, hkd, by omega, fun j hj1 hj2 => hterm j (by omega) hj2,
            fun j hj1 hj2 => hfire j (by omega) hj2, hfk⟩

theorem specWindow_zero (m : GenModel) (ρ : Nat → Nat) (s windowSize : Nat) :
    specWindow m ρ s windowSize 0 = [] := by
  simp [specWindow]

theorem adaptiveRunFrom_converged_fires (m : GenModel) (ρ : Nat → Nat) (s : Nat)
    (minDepth windowSize : Nat) (threshold : ℚ) :
    ∀ fuel d totalRew,
      (adaptiveRunFrom m ρ minDepth windowSize threshold fuel d (trajS m ρ s d)
        (m.getDiscount ^ d) totalRew (specWindow m ρ s windowSize d)
        ((specWindow m ρ s windowSize d).sum)).1 = .converged →
      firesB m ρ s minDepth windowSize threshold
        (d + (adaptiveRunFrom m ρ minDepth windowSize threshold fuel d
          (trajS m ρ s d) (m.getDiscount ^ d) totalRew
          (specWindow m ρ s windowSize d)
          ((specWindow m ρ s windowSize d).sum)).2.1 - 1) = true := by
  intro fuel
  induction fuel with
  | zero =>
    intro d totalRew h
    simp only [adaptiveRunFrom] at h
    simp at h
  | succ n ih =>
    intro d totalRew h
    simp only [adaptiveRunFrom] at h ⊢
    rw [← trajS_succ m ρ s d, ← trajR_def m ρ s d, ← discountedRew_def m ρ s d,
      ← pow_succ, specWindow_push m ρ s windowSize d,
      specWindow_sum_push m ρ s windowSize d] at h ⊢
    cases hT : m.isTerminal (trajS m ρ s (d + 1)) with
    | true =>
      rw [if_pos hT] at h
      simp at h
    | false =>
      rw [if_neg (by simp [hT])] at h
      rw [if_neg (by simp : ¬ (false = true))]
      by_cases hP : minDepth ≤ d ∧
          (specWindow m ρ s windowSize (d + 1)).length = windowSize ∧
          rabs ((specWindow m ρ s windowSize (d + 1)).getLastD 0 -
            (specWindow m ρ s windowSize (d + 1)).sum / (windowSize : ℚ)) <
            threshold
      · rw [if_pos hP]
        dsimp only
        rw [show d + 1 - 1 = d by omega]
        rw [firesB_eq_true_iff]
        exact hP
      · rw [if_neg hP] at h ⊢
        dsimp only at h ⊢
        have h2 := ih (d + 1) (totalRew + discountedRew m ρ s d) h
        rw [show ∀ x : Nat, d + (x + 1) - 1 = d + 1 + x - 1 from
          fun x => by omega]
        exact h2

/-- C4: the adaptive rollout stops through its convergence check exactly when
there is a depth `d < maxDepth`, reached with no earlier terminal state and
no earlier firing, at which the depth has reached `minDepth`, the sliding
window holds exactly `windowSize` entries, and the most recent entry differs
from the window's running sum divided by `windowSize` by strictly less than
`threshold` (`firesB`); additionally, the window after each step is obtained
from the previous one by appending the step's discounted reward
`getDiscount ^ depth * reward` and evicting the oldest entry whenever the
window would exceed `windowSize` entries. -/
theorem claim_C4 (m : GenModel) (s maxDepth : Nat) (ρ : Nat → Nat)
    (minDepth windowSize : Nat) (threshold : ℚ) :
    (adaptiveStop m s maxDepth ρ minDepth windowSize threshold = .converged ↔
      ∃ d, d < maxDepth ∧
        (∀ j, j ≤ d → m.isTerminal (trajS m ρ s (j + 1)) = false) ∧
        (∀ j, j < d →
          firesB m ρ s minDepth windowSize threshold j = false) ∧
        firesB m ρ s minDepth windowSize threshold d = true) ∧
    (∀ d, specWindow m ρ s windowSize (d + 1) =
      (if windowSize < (specWindow m ρ s windowSize d ++
          [discountedRew m ρ s d]).length
        then (specWindow m ρ s windowSize d ++ [discountedRew m ρ s d]).tail
        else specWindow m ρ s windowSize d ++ [discountedRew m ρ s d])) := by
  constructor
  · have h := adaptiveRunFrom_converged_iff m ρ s minDepth windowSize threshold
      maxDepth 0 0
    rw [trajS_zero, pow_zero, specWindow_zero, List.sum_nil] at h
    simp only [Nat.zero_le, true_implies, true_and, Nat.zero_add] at h
    exact h
  · intro d
    exact (specWindow_push m ρ s windowSize d).symm

theorem claim_C4_witness :
    ∃ d, d < 5 ∧
      (∀ j, j ≤ d → exZ.isTerminal (trajS exZ exZeroStream 0 (j + 1)) = false) ∧
      (∀ j, j < d → firesB exZ exZeroStream 0 0 1 (1 / 100) j = false) ∧
      firesB exZ exZeroStream 0 0 1 (1 / 100) d = true :=
  (claim_C4 exZ 0 5 exZeroStream 0 1 (1 / 100)).1.mp (by
    norm_num [adaptiveStop, adaptiveRunFrom, stepSR, exZ, exZeroStream,
      uniformDraw, rabs])

/-- C5: a sliding window holding fewer than `windowSize` entries is treated
as "not yet converged", not as an error: the adaptive run never stops through
the convergence check at a depth whose window is still short, and (for a
positive `windowSize`) the instrumented run reports no failure and returns
the ordinary value, the simulation continuing until the window fills, a
terminal state is reached, or the depth budget runs out. -/
theorem claim_C5 (m : GenModel) (s maxDepth : Nat) (ρ : Nat → Nat)
    (minDepth windowSize : Nat) (threshold : ℚ) (d : Nat)
    (hlen : (specWindow m ρ s windowSize (d + 1)).length < windowSize) :
    ¬ (adaptiveStop m s maxDepth ρ minDepth windowSize threshold = .converged ∧
        adaptiveSteps m s maxDepth ρ minDepth windowSize threshold = d + 1) ∧
    (1 ≤ windowSize →
      adaptiveRolloutChk m s maxDepth ρ minDepth windowSize threshold =
        .ok (adaptiveRollout m s maxDepth ρ minDepth windowSize threshold)) := by
  constructor
  · rintro ⟨hconv, hsteps⟩
    have hconv' : (adaptiveRunFrom m ρ minDepth windowSize threshold maxDepth 0
        (trajS m ρ s 0) (m.getDiscount ^ 0) 0 (specWindow m ρ s windowSize 0)
        ((specWindow m ρ s windowSize 0).sum)).1 = .converged := by
      rw [trajS_zero, pow_zero, specWindow_zero, List.sum_nil]
      exact hconv
    have h := adaptiveRunFrom_converged_fires m ρ s minDepth windowSize
      threshold maxDepth 0 0 hconv'
    rw [trajS_zero, pow_zero, specWindow_zero, List.sum_nil] at h
    have hsteps' : (adaptiveRunFrom m ρ minDepth windowSize threshold maxDepth 0
        s 1 0 [] 0).2.1 = d + 1 := hsteps
    rw [hsteps'] at h
    rw [show 0 + (d + 1) - 1 = d by omega] at h
    rcases (firesB_eq_true_iff m ρ s minDepth windowSize threshold d).mp h
      with ⟨-, hL, -⟩
    omega
  · intro hW
    exact adaptiveChkFrom_ok m ρ minDepth windowSize threshold hW maxDepth 0 s
      1 0 [] 0

theorem claim_C5_witness :
    (specWindow exZ exZeroStream 0 2 (0 + 1)).length < 2 ∧
      ¬ (adaptiveStop exZ 0 5 exZeroStream 0 2 (1 / 100) = .converged ∧
          adaptiveSteps exZ 0 5 exZeroStream 0 2 (1 / 100) = 0 + 1) :=
  ⟨by simp [specWindow],
    (claim_C5 exZ 0 5 exZeroStream 0 2 (1 / 100) 0 (by simp [specWindow])).1⟩

theorem rolloutVarFrom_toVar (m : GenModel) (ρ : Nat → Nat) :
    ∀ fuel d s gamma totalRew,
      rolloutVarFrom (toVar m) ρ fuel d s gamma totalRew =
        rolloutFrom m ρ fuel d s gamma totalRew := by
  intro fuel
  induction fuel with
  | zero => intro d s gamma totalRew; rfl
  | succ n ih =>
    intro d s gamma totalRew
    simp only [rolloutVarFrom, rolloutFrom, stepSRV, stepSR, toVar]
    cases hT : m.isTerminal
        (m.sampleSR s (uniformDraw m.getA (ρ (2 * d))) (ρ (2 * d + 1))).1 with
    | true => simp [hT]
    | false =>
      simp only [hT, Bool.false_eq_true, if_false]
      exact ih _ _ _ _

theorem adaptiveVarFrom_toVar (m : GenModel) (ρ : Nat → Nat)
    (minDepth windowSize : Nat) (threshold : ℚ) :
    ∀ fuel d s gamma totalRew window windowSum,
      adaptiveVarFrom (toVar m) ρ minDepth windowSize threshold fuel d s gamma
        totalRew window windowSum =
      adaptiveFrom m ρ minDepth windowSize threshold fuel d s gamma totalRew
        window windowSum := by
  intro fuel
  induction fuel with
  | zero => intro d s gamma totalRew window windowSum; rfl
  | succ n ih =>
    intro d s gamma totalRew window windowSum
    simp only [adaptiveVarFrom, adaptiveFrom, stepSRV, stepSR, toVar]
    cases hT : m.isTerminal
        (m.sampleSR s (uniformDraw m.getA (ρ (2 * d))) (ρ (2 * d + 1))).1 with
    | true => simp [hT]
    | false =>
      simp only [hT, Bool.false_eq_true, if_false]
      exact if_congr Iff.rfl rfl (ih _ _ _ _ _ _)

/-- C7: at every step the action is drawn uniformly from the legal action
set.  The drawn action is always a legal index: below `getA` for a
fixed-action-space model (the distribution depending on `getA` alone, not on
the state), and below `getA s` of the current state for a
variable-action-space model.  The embedded uniform draw takes each legal
action exactly once per period of raw draws, and the two compile-time
dispatch paths agree: on a fixed-action model viewed through the
variable-action interface, both rollout variants compute identical values. -/
theorem claim_C7 :
    (∀ (m : GenModel) (ρ : Nat → Nat) (d : Nat), 0 < m.getA →
      trajA m ρ d < m.getA) ∧
    (∀ (mv : GenModelV) (ρ : Nat → Nat) (s d : Nat),
      0 < mv.getA (trajSV mv ρ s d) →
      trajAV mv ρ (trajSV mv ρ s d) d < mv.getA (trajSV mv ρ s d)) ∧
    (∀ A a : Nat, a < A →
      (Finset.range A).filter (fun r => uniformDraw A r = a) = {a}) ∧
    (∀ (m : GenModel) (s maxDepth : Nat) (ρ : Nat → Nat),
      rolloutVar (toVar m) s maxDepth ρ = rollout m s maxDepth ρ) ∧
    (∀ (m : GenModel) (s maxDepth : Nat) (ρ : Nat → Nat)
      (minDepth windowSize : Nat) (threshold : ℚ),
      adaptiveRolloutVar (toVar m) s maxDepth ρ minDepth windowSize threshold =
        adaptiveRollout m s maxDepth ρ minDepth windowSize threshold) := by
  refine ⟨?_, ?_, ?_, ?_, ?_⟩
  · intro m ρ d hA
    exact Nat.mod_lt _ hA
  · intro mv ρ s d hA
    exact Nat.mod_lt _ hA
  · intro A a ha
    ext r
    simp only [Finset.mem_filter, Finset.mem_range, Finset.mem_singleton,
      uniformDraw]
    constructor
    · rintro ⟨hr, hmod⟩
      rw [Nat.mod_eq_of_lt hr] at hmod
      exact hmod
    · rintro rfl
      exact ⟨ha, Nat.mod_eq_of_lt ha⟩
  · intro m s maxDepth ρ
    exact rolloutVarFrom_toVar m ρ maxDepth 0 s 1 0
  · intro m s maxDepth ρ minDepth windowSize threshold
    exact adaptiveVarFrom_toVar m ρ minDepth windowSize threshold maxDepth 0 s
      1 0 [] 0

theorem claim_C7_witness :
    0 < exM.getA ∧ trajA exM exStream 1 < exM.getA ∧
      (Finset.range 3).filter (fun r => uniformDraw 3 r = 2) = {2} :=
  ⟨by decide, claim_C7.1 exM exStream 1 (by decide),
    claim_C7.2.2.1 3 2 (by decide)⟩

/-- C8: the tiger model built by `makeTigerProblem` has 2 states, 3 actions
and 2 observations; listening leaves the hidden state unchanged with
probability 1 and yields the correct observation with probability 0.85
(and the wrong one with probability 0.15); listening costs reward 1 in every
state; opening the treasure door yields reward 10 and opening the tiger's
door yields 100 of penalty; opening either door reshuffles the hidden state
uniformly; and every transition and observation row is a probability
distribution: non-negative entries summing to 1. -/
theorem claim_C8 :
    tigerS = 2 ∧ tigerA = 3 ∧ tigerO = 2 ∧
    (∀ s : Fin 2, tigerT s aListen s = 1) ∧
    (∀ s s1 : Fin 2, s1 ≠ s → tigerT s aListen s1 = 0) ∧
    (∀ s1 : Fin 2, tigerZ s1 aListen s1 = 85 / 100) ∧
    (∀ s1 o : Fin 2, o ≠ s1 → tigerZ s1 aListen o = 15 / 100) ∧
    (∀ s s1 : Fin 2, tigerR s aListen s1 = -1) ∧
    (∀ s1 : Fin 2, tigerR tigRight aLeft s1 = 10 ∧
      tigerR tigLeft aLeft s1 = -100 ∧ tigerR tigLeft aRight s1 = 10 ∧
      tigerR tigRight aRight s1 = -100) ∧
    (∀ (s s1 : Fin 2) (a : Fin 3), a ≠ aListen → tigerT s a s1 = 1 / 2) ∧
    (∀ (s : Fin 2) (a : Fin 3),
      (∑ s1 : Fin 2, tigerT s a s1) = 1 ∧ ∀ s1, 0 ≤ tigerT s a s1) ∧
    (∀ (s1 : Fin 2) (a : Fin 3),
      (∑ o : Fin 2, tigerZ s1 a o) = 1 ∧ ∀ o, 0 ≤ tigerZ s1 a o) := by
  refine ⟨rfl, rfl, rfl, ?_, ?_, ?_, ?_, ?_, ?_, ?_, ?_, ?_⟩
  · intro s
    fin_cases s <;> norm_num [tigerT, aListen]
  · intro s s1 h
    fin_cases s <;> fin_cases s1 <;> simp_all <;> norm_num [tigerT, aListen]
  · intro s1
    fin_cases s1 <;> norm_num [tigerZ, aListen]
  · intro s1 o h
    fin_cases s1 <;> fin_cases o <;> simp_all <;> norm_num [tigerZ, aListen]
  · intro s s1
    fin_cases s <;> fin_cases s1 <;> norm_num [tigerR, aListen]
  · intro s1
    fin_cases s1 <;>
      refine ⟨?_, ?_, ?_, ?_⟩ <;>
        norm_num [tigerR, aListen, aLeft, aRight, tigLeft, tigRight,
          Fin.ext_iff]
  · intro s s1 a h
    fin_cases s <;> fin_cases s1 <;> fin_cases a <;>
      simp_all [tigerT, aListen, Fin.ext_iff]
  · intro s a
    refine ⟨?_, ?_⟩
    · fin_cases s <;> fin_cases a <;>
        norm_num [tigerT, aListen, Fin.sum_univ_two, Fin.ext_iff] <;> decide
    · intro s1
      fin_cases s <;> fin_cases a <;> fin_cases s1 <;>
        norm_num [tigerT, aListen, Fin.ext_iff]
  · intro s1 a
    refine ⟨?_, ?_⟩
    · fin_cases s1 <;> fin_cases a <;>
        norm_num [tigerZ, aListen, Fin.sum_univ_two, Fin.ext_iff]
    · intro o
      fin_cases s1 <;> fin_cases a <;> fin_cases o <;>
        norm_num [tigerZ, aListen, Fin.ext_iff]
